import Mathlib

/-!
Shallow embedding of the Stream-Compressed-FILE repository.

The gzip backend is translated from src/unnamed/part_000, which is the
current revision of zfile.c (it matches zfile.h, which declares zopenfile
and defines gz_magic); src/zfile.c is an earlier revision of the same
translation unit (both define zopen, zfile_read, zfile_seek, zfile_close,
so they cannot be linked together).  The zstd backend is translated from
src/zstdfile.c.

The external decompression engines (zlib inflate, ZSTD_decompressStream)
and the CRC accumulator are opaque collaborators of the code under
verification, so they are modelled as abstract function parameters; every
theorem below quantifies over them.  An engine step receives its opaque
internal state (a Nat), the pending input bytes (next_in/avail_in), and
the output capacity (avail_out), and reports its new internal state, how
many input bytes it consumed, the bytes it produced, and a status.  The
wrapper code treats the engine as a black box, so this captures exactly
the interface the C code relies on.

Machine integers: uint64_t and size_t fields are modelled as Nat (their
C arithmetic here never wraps on the reachable states the claims are
about), off64_t as Int, and the one place the code truncates
(uint32_t tlen = actual_len) is modelled with an explicit mod 2^32.
Process termination via exit(1) after warnx, and the asserts (the file
undefines NDEBUG), are modelled by the distinguished fatal result.
-/

namespace SCF

/-- Size of struct zfile.inbuf: 32 KB. -/
def INBUF_SZ : Nat := 32 * 1024

/-- Size of struct zfile.outbuf: 256 KB. -/
def OUTBUF_SZ : Nat := 256 * 1024

/-- Fixed gzip header size skipped at init (zfile.h). -/
def GZ_HDR_SZ : Nat := 10

/-- errno value EINVAL. -/
def EINVAL : Nat := 22

/-- errno value ENOBUFS, used by zfile_read to surface truncation. -/
def ENOBUFS : Nat := 105

/-- The three magic bytes checked by zopenfile (zfile.h gz_magic). -/
def gz_magic : List Nat := [31, 139, 8]

/-- ZSTD_MAGICNUMBER, the little-endian uint32 checked by zstdopen. -/
def ZSTD_MAGICNUMBER : Nat := 4247762216

/-- The underlying source FILE stream: file contents, current position,
and the end-of-file indicator queried by feof. The error indicator is
not modelled (no I/O errors), so ferror is always false. -/
structure SrcFile where
  data : List Nat
  pos : Nat
  eofInd : Bool
deriving Repr, DecidableEq

/-- fread(buf, 1, n, f): returns the bytes obtained and the updated FILE.
The end-of-file indicator becomes set when fewer than n bytes were
available. -/
def fread (f : SrcFile) (n : Nat) : List Nat × SrcFile :=
  let avail := f.data.length - f.pos
  let got := min n avail
  ((f.data.drop f.pos).take got,
   { f with pos := f.pos + got, eofInd := f.eofInd || decide (got < n) })

/-- Status reported by one zlib inflate step (errors are collapsed into
one constructor; the wrapper only distinguishes Z_OK, Z_STREAM_END and
everything else). -/
inductive ZStatus
  | zok
  | streamEnd
  | zerror
deriving Repr, DecidableEq

/-- Result of one abstract inflate step. -/
structure InfRes where
  st : Nat
  consumed : Nat
  out : List Nat
  status : ZStatus
deriving Repr, DecidableEq

/-- An abstract zlib inflate engine: opaque internal state, pending
input, output capacity to new state, input consumed, output produced,
and status. -/
abbrev Eng := Nat → List Nat → Nat → InfRes

/-- An abstract incremental CRC accumulator (crc32). -/
abbrev CrcF := Nat → List Nat → Nat

/-- struct zfile (src/unnamed/part_000).  The zlib z_stream fields are
represented by the data they denote: zst is the opaque engine state,
inq the bytes at next_in/avail_in not yet consumed by the engine, and
outq the decoded bytes in outbuf between outbuf_start and next_out that
have not yet been handed to the caller (outbuf_start itself and
avail_out are determined by these). -/
structure ZState where
  src : SrcFile
  logic_offset : Nat
  decode_offset : Nat
  actual_len : Nat
  zst : Nat
  inq : List Nat
  outq : List Nat
  crc : Nat
  eof : Bool
  truncated : Bool
deriving Repr, DecidableEq

/-- zfile_zlib_init: reset all offsets, fseeko the source past the gzip
header (which also clears the feof indicator), fresh inflate context
(opaque state 0), empty buffers, crc32(0, NULL, 0) = 0, flags cleared. -/
def zfile_zlib_init (src : SrcFile) : ZState :=
  { src := { src with pos := GZ_HDR_SZ, eofInd := false }
    logic_offset := 0
    decode_offset := 0
    actual_len := 0
    zst := 0
    inq := []
    outq := []
    crc := 0
    eof := false
    truncated := false }

/-- The state of a freshly opened gzip stream on a file with the given
contents: zopenfile reads the header and calls zfile_zlib_init, which
seeks to GZ_HDR_SZ. -/
def zfile_fresh (data : List Nat) : ZState :=
  zfile_zlib_init { data := data, pos := 0, eofInd := false }

/-- Warnings printed with warnx on stderr (the ones that do not exit). -/
inductive Warning
  | truncNoCRC
  | truncLostTrailer
  | crcMismatch (actual expected : Nat)
  | crcGood (c : Nat)
deriving Repr, DecidableEq

/-- Result of a cookie read: byte count (0 means EOF), read error with
errno, fatal process termination (exit(1)), or fuel exhaustion of the
model (never reached by a productive engine). -/
inductive RRes
  | ok (n : Nat)
  | rerr (errno : Nat)
  | fatal
  | spin
deriving Repr, DecidableEq

/-- Full outcome of one zfile_read call: result, the bytes copied to the
caller buffer, the updated stream state, warnings emitted. -/
structure ReadOut where
  res : RRes
  bytes : List Nat
  st : ZState
  warns : List Warning
deriving Repr, DecidableEq

/-- Outcome of the output-buffer drain loop at the top of the read loop
(lines 225-257 of part_000): bytes skipped for a pending seek, bytes
delivered to the caller, and what remains. -/
structure DrainOut where
  ignorebytes : Nat
  outq : List Nat
  skipped : Nat
  delivered : List Nat
  size : Nat
deriving Repr, DecidableEq

/-- The drain loop: first discard up to ignorebytes bytes of decoded
output (ignoreskip), and if the seek skip is still unfinished stop
there; otherwise copy min(left, size) bytes out to the caller. -/
def drain (ig : Nat) (outq : List Nat) (size : Nat) : DrainOut :=
  let k := min ig outq.length
  let outq1 := outq.drop k
  let ig1 := ig - k
  if 0 < ig1 then
    { ignorebytes := ig1, outq := outq1, skipped := k, delivered := [], size := size }
  else
    let t := min outq1.length size
    { ignorebytes := 0, outq := outq1.drop t, skipped := k,
      delivered := outq1.take t, size := size - t }

/-- The loop-carried locals of zfile_read: the cookie, the last inflate
status (ret), the remaining seek-skip bytes, the unsatisfied request
size, the byte count copied so far (total), the bytes copied so far,
and the warnings emitted so far. -/
structure LoopSt where
  s : ZState
  ret : ZStatus
  ignorebytes : Nat
  size : Nat
  total : Nat
  acc : List Nat
  warns : List Warning
deriving Repr, DecidableEq

/-- How one iteration of the read loop ends: run another iteration,
break out of the loop (towards the trailer check), goto out (skipping
the trailer check), or exit(1). -/
inductive LoopStep
  | cont (l : LoopSt)
  | brk (l : LoopSt)
  | toOut (l : LoopSt)
  | die (l : LoopSt)
deriving Repr, DecidableEq

/-- One iteration of the do-while loop of zfile_read (part_000 lines
221-316): drain the output buffer; if the request is satisfied break;
if the last inflate reported stream end set eof and break; refill the
input buffer from the source if it is empty (an empty read at feof is a
truncation: set the truncated flag and goto out); reset the output
buffer to its start and run one inflate step, folding the produced
bytes into actual_len and the checksum. -/
def zfile_step (eng : Eng) (crcF : CrcF) (l : LoopSt) : LoopStep :=
  let d := drain l.ignorebytes l.s.outq l.size
  let s1 : ZState := { l.s with
    outq := d.outq
    decode_offset := l.s.decode_offset + d.skipped + d.delivered.length
    logic_offset := l.s.logic_offset + d.delivered.length }
  let l1 : LoopSt := { l with
    s := s1
    ignorebytes := d.ignorebytes
    size := d.size
    total := l.total + d.delivered.length
    acc := l.acc ++ d.delivered }
  if l1.size = 0 then .brk l1
  else if l1.ret = ZStatus.streamEnd then .brk { l1 with s := { s1 with eof := true } }
  else
    let p := if s1.inq = [] then fread s1.src INBUF_SZ else (s1.inq, s1.src)
    if s1.inq = [] ∧ p.1 = [] ∧ p.2.eofInd = true then
      .toOut { l1 with
        s := { s1 with src := p.2, truncated := true }
        warns := l1.warns ++ [Warning.truncNoCRC] }
    else
      let s2 : ZState := { s1 with src := p.2, inq := p.1 }
      let r := eng s2.zst s2.inq OUTBUF_SZ
      if r.status = ZStatus.zerror then .die { l1 with s := s2 }
      else
        let c := min r.consumed s2.inq.length
        let o := r.out.take OUTBUF_SZ
        .cont { l1 with
          ret := r.status
          s := { s2 with
            zst := r.st
            inq := s2.inq.drop c
            outq := o
            actual_len := s2.actual_len + o.length
            crc := crcF s2.crc o } }

/-- How the read loop as a whole ends (spin is fuel exhaustion). -/
inductive LoopOut
  | brk (l : LoopSt)
  | toOut (l : LoopSt)
  | die (l : LoopSt)
  | spin (l : LoopSt)
deriving Repr, DecidableEq

/-- The do-while loop of zfile_read, driven by fuel.  The loop condition
(!ferror and size > 0) is folded into zfile_step: ferror is always
false in this model and an iteration with the request satisfied breaks. -/
def zfile_loop (eng : Eng) (crcF : CrcF) : Nat → LoopSt → LoopOut
  | 0, l => .spin l
  | Nat.succ fuel, l =>
    match zfile_step eng crcF l with
    | .cont l1 => zfile_loop eng crcF fuel l1
    | .brk l1 => .brk l1
    | .toOut l1 => .toOut l1
    | .die l1 => .die l1

/-- The out label of zfile_read (part_000 lines 383-407): a positive
total is returned as a (possibly short) read; otherwise a recorded
truncation is surfaced as a -1 error with errno ENOBUFS and the eof
flag is set; otherwise 0 (EOF). -/
def zfile_out (s : ZState) (total : Nat) (acc : List Nat) (ws : List Warning) : ReadOut :=
  if 0 < total then { res := .ok total, bytes := acc, st := s, warns := ws }
  else if s.truncated = true then
    { res := .rerr ENOBUFS, bytes := acc, st := { s with eof := true }, warns := ws }
  else { res := .ok 0, bytes := acc, st := s, warns := ws }

/-- Little-endian decoding of a 4-byte field of the gzip trailer. -/
def le32 (bs : List Nat) : Nat :=
  match bs with
  | [a, b, c, d] => a + 256 * b + 65536 * c + 16777216 * d
  | _ => 0

/-- Gathering the 8 trailer bytes: first whatever still sits in the
zlib input buffer (memcpy from next_in, which does not consume it),
then any remainder read directly from the source file (the fread loop
reads everything still available, up to the remainder). -/
def trailer8 (s : ZState) : List Nat × SrcFile :=
  let fromBuf := min s.inq.length 8
  if fromBuf < 8 then
    let q := fread s.src (8 - fromBuf)
    (s.inq.take fromBuf ++ q.1, q.2)
  else (s.inq.take fromBuf, s.src)

/-- The trailer-validation block of zfile_read (part_000 lines 318-381)
followed by the out label.  Runs only when eof was reached: gather the
8 trailer bytes (fewer available is a truncation: warn, set truncated,
goto out); a non-zero trailer CRC is compared against the accumulated
CRC and a mismatch only produces a warning; a trailer length field that
differs from actual_len mod 2^32 is fatal (exit(1)). -/
def zfile_finish (s : ZState) (total : Nat) (acc : List Nat) (ws : List Warning) : ReadOut :=
  if s.eof = true then
    let tlen := s.actual_len % 4294967296
    let p := trailer8 s
    if p.1.length < 8 then
      zfile_out { s with src := p.2, truncated := true } total acc
        (ws ++ [Warning.truncLostTrailer])
    else
      let gcrc := le32 (p.1.take 4)
      let gmlen := le32 ((p.1.drop 4).take 4)
      let ws1 := ws ++
        (if gcrc ≠ 0 then
          (if s.crc ≠ gcrc then [Warning.crcMismatch s.crc gcrc]
           else [Warning.crcGood s.crc])
         else [])
      if tlen ≠ gmlen then { res := .fatal, bytes := acc, st := { s with src := p.2 }, warns := ws1 }
      else zfile_out { s with src := p.2 } total acc ws1
  else zfile_out s total acc ws

/-- The initial loop locals for a zfile_read call. -/
def mkLoop (s : ZState) (size : Nat) : LoopSt :=
  { s := s, ret := ZStatus.zok, ignorebytes := s.logic_offset - s.decode_offset,
    size := size, total := 0, acc := [], warns := [] }

/-- zfile_read (part_000 lines 191-408).  A size-0 request returns 0 at
once; at eof return 0; a previously recorded truncation goes straight
to the out label (surfacing the error and setting eof); otherwise run
the decode loop and then the trailer check. -/
def zfile_read (eng : Eng) (crcF : CrcF) (fuel : Nat) (s : ZState) (size : Nat) : ReadOut :=
  if size = 0 then { res := .ok 0, bytes := [], st := s, warns := [] }
  else if s.eof = true then { res := .ok 0, bytes := [], st := s, warns := [] }
  else if s.truncated = true then zfile_out s 0 [] []
  else
    match zfile_loop eng crcF fuel (mkLoop s size) with
    | .brk l => zfile_finish l.s l.total l.acc l.warns
    | .toOut l => zfile_out l.s l.total l.acc l.warns
    | .die l => { res := .fatal, bytes := l.acc, st := l.s, warns := l.warns }
    | .spin l => { res := .spin, bytes := l.acc, st := l.s, warns := l.warns }

/-- Result of a cookie seek: new offset, error (-1), fatal exit during
skip reads, or fuel exhaustion. -/
inductive SeekRes
  | sok (off : Int)
  | serr
  | sfatal
  | sspin
deriving Repr, DecidableEq

/-- whence values accepted by the seek callbacks. -/
inductive Whence
  | set
  | cur
  | endW
deriving Repr, DecidableEq

/-- The resolved absolute target of a seek request: SEEK_SET is the
offset itself, SEEK_CUR is logic_offset + offset, SEEK_END is rejected. -/
def resolvedTarget (logic : Nat) (offset : Int) (w : Whence) : Option Int :=
  match w with
  | .set => some offset
  | .cur => some ((logic : Int) + offset)
  | .endW => none

/-- The forward-seek emulation loop (part_000 lines 446-461): while the
target is ahead, read and discard min(32 KB, remaining) bytes; a read
error aborts the seek with -1; a 0 read means eof was hit, and the seek
finishes at the current logical offset. -/
def zfile_skip (eng : Eng) (crcF : CrcF) (rf : Nat) : Nat → Nat → ZState → SeekRes × ZState
  | 0, _, s => (.sspin, s)
  | Nat.succ fuel, target, s =>
    if s.logic_offset < target then
      let diff := min (32 * 1024) (target - s.logic_offset)
      let o := zfile_read eng crcF rf s diff
      match o.res with
      | .ok 0 => (.sok (o.st.logic_offset : Int), o.st)
      | .ok (Nat.succ _) => zfile_skip eng crcF rf fuel target o.st
      | .rerr _ => (.serr, o.st)
      | .fatal => (.sfatal, o.st)
      | .spin => (.sspin, o.st)
    else (.sok (target : Int), s)

/-- zfile_seek (part_000 lines 410-469): resolve the target (SEEK_END is
an error); negative targets and backward targets other than 0 are
errors that leave the cookie untouched; target 0 tears the decoder down,
rewinds the source and builds the decoder anew; a target ahead of logic_offset is
emulated with discard reads; a target equal to logic_offset is a no-op. -/
def zfile_seek (eng : Eng) (crcF : CrcF) (rf sf : Nat) (s : ZState) (offset : Int)
    (w : Whence) : SeekRes × ZState :=
  match resolvedTarget s.logic_offset offset w with
  | none => (.serr, s)
  | some t =>
    if t < 0 then (.serr, s)
    else if t < (s.logic_offset : Int) ∧ t ≠ 0 then (.serr, s)
    else if t = 0 then (.sok 0, zfile_zlib_init s.src)
    else if (s.logic_offset : Int) < t then zfile_skip eng crcF rf sf t.toNat s
    else (.sok t, s)

/-- Result of zopenfile/zopen/zstdopen, together with the state of the
underlying FILE as the caller would observe it afterwards.  fail also
records the errno the function set (none if it only propagated). -/
inductive OpenRes
  | fail (errno : Option Nat) (f : SrcFile)
  | passthrough (f : SrcFile)
  | wrapped (s : ZState)
deriving Repr, DecidableEq

/-- zopenfile (part_000 lines 115-166): reject modes containing w or a
with EINVAL before touching the stream; read the header (too short is a
failure); a magic mismatch rewinds and hands back the original stream;
otherwise build the cookie. -/
def zopenfile (f : SrcFile) (mode : List Char) : OpenRes :=
  if mode.contains 'w' || mode.contains 'a' then .fail (some EINVAL) f
  else
    let p := fread f GZ_HDR_SZ
    if p.1.length < GZ_HDR_SZ then .fail none p.2
    else if p.1.take 3 ≠ gz_magic then
      .passthrough { p.2 with pos := 0, eofInd := false }
    else .wrapped (zfile_zlib_init p.2)

/-- fopen on a path modelled by its optional contents: mode w truncates
or creates, mode a creates if absent, otherwise the file must exist. -/
def fopen (fs : Option (List Nat)) (mode : List Char) : Option SrcFile :=
  if mode.contains 'w' then some { data := [], pos := 0, eofInd := false }
  else if mode.contains 'a' then some { data := fs.getD [], pos := 0, eofInd := false }
  else fs.map (fun d => { data := d, pos := 0, eofInd := false })

/-- Outcome of zopen/zstdopen on a path: the result plus whether the
underlying file was actually opened (fopen called and succeeded) and
whether it was closed again. -/
structure POpenOut where
  res : OpenRes
  openedSource : Bool
  closedSource : Bool
deriving Repr, DecidableEq

/-- zopen (part_000 lines 174-187): fopen the path first, then delegate
to zopenfile; on failure the just-opened FILE is closed. -/
def zopen (fs : Option (List Nat)) (mode : List Char) : POpenOut :=
  match fopen fs mode with
  | none => { res := .fail none { data := [], pos := 0, eofInd := false },
              openedSource := false, closedSource := false }
  | some f =>
    match zopenfile f mode with
    | .fail e f1 => { res := .fail e f1, openedSource := true, closedSource := true }
    | .passthrough f1 => { res := .passthrough f1, openedSource := true, closedSource := false }
    | .wrapped s => { res := .wrapped s, openedSource := true, closedSource := false }

/-- Status of one ZSTD_decompressStream step: a size_t hint (0 means a
frame was just completed) or an error. -/
inductive DStatus
  | hint (n : Nat)
  | zderr
deriving Repr, DecidableEq

/-- ZSTD_isError on a decompress return value. -/
def DStatus.isErr : DStatus → Bool
  | .zderr => true
  | .hint _ => false

/-- The size_t value of a non-error decompress return. -/
def DStatus.hintVal : DStatus → Nat
  | .zderr => 0
  | .hint n => n

/-- Result of one abstract zstd decompress step. -/
structure DecRes where
  st : Nat
  consumed : Nat
  out : List Nat
  status : DStatus
deriving Repr, DecidableEq

/-- An abstract zstd streaming decompressor. -/
abbrev DEng := Nat → List Nat → Nat → DecRes

/-- struct zstdfile (src/zstdfile.c).  inq models inbuf[ibuf.pos ..
ibuf.size) (input not yet consumed by the decompressor) and outq models
outbuf[outbuf_start .. obuf.pos); inbuf_size and outbuf_size record the
heap buffer sizes obtained from ZSTD_DStreamInSize/OutSize. -/
structure DState where
  src : SrcFile
  logic_offset : Nat
  decode_offset : Nat
  actual_len : Nat
  zst : Nat
  inq : List Nat
  outq : List Nat
  inbuf_size : Nat
  outbuf_size : Nat
  eof : Bool
deriving Repr, DecidableEq

/-- zstdfile_init: offsets already zero, fresh DCtx (opaque state 0),
empty buffers of the engine-recommended sizes, eof cleared.  The source
is not repositioned (the zstd decoder rereads from offset 0). -/
def zstdfile_init (insz outsz : Nat) (src : SrcFile) : DState :=
  { src := src
    logic_offset := 0
    decode_offset := 0
    actual_len := 0
    zst := 0
    inq := []
    outq := []
    inbuf_size := insz
    outbuf_size := outsz
    eof := false }

/-- The state of a freshly opened zstd stream: zstdopen reads the 4
magic bytes, rewinds, and calls zstdfile_init. -/
def zstd_fresh (insz outsz : Nat) (data : List Nat) : DState :=
  zstdfile_init insz outsz { data := data, pos := 0, eofInd := false }

/-- Outcome of one zstdfile_read call. -/
structure DReadOut where
  res : RRes
  bytes : List Nat
  st : DState
deriving Repr, DecidableEq

/-- The loop-carried locals of zstdfile_read; ret is the last
ZSTD_decompressStream return value (initially 0). -/
structure DLoopSt where
  s : DState
  ret : Nat
  ignorebytes : Nat
  size : Nat
  total : Nat
  acc : List Nat
deriving Repr, DecidableEq

/-- How one iteration of the zstd read loop ends. -/
inductive DLoopStep
  | cont (l : DLoopSt)
  | brk (l : DLoopSt)
  | die (l : DLoopSt)
deriving Repr, DecidableEq

/-- One iteration of the do-while loop of zstdfile_read (zstdfile.c
lines 226-324): drain the output buffer; if satisfied break; if the
last decompress step returned 0 and all buffered input was consumed,
compare ftello against fstat st_size and declare end-of-stream on
equality; refill the input buffer if empty (an empty read at feof is a
fatal truncation); run one decompress step (errors are fatal). -/
def zstd_step (eng : DEng) (l : DLoopSt) : DLoopStep :=
  let d := drain l.ignorebytes l.s.outq l.size
  let s1 : DState := { l.s with
    outq := d.outq
    decode_offset := l.s.decode_offset + d.skipped + d.delivered.length
    logic_offset := l.s.logic_offset + d.delivered.length }
  let l1 : DLoopSt := { l with
    s := s1
    ignorebytes := d.ignorebytes
    size := d.size
    total := l.total + d.delivered.length
    acc := l.acc ++ d.delivered }
  if l1.size = 0 then .brk l1
  else if l1.ret = 0 ∧ s1.inq = [] ∧ s1.src.pos = s1.src.data.length then
    .brk { l1 with s := { s1 with eof := true } }
  else
    let p := if s1.inq = [] then fread s1.src s1.inbuf_size else (s1.inq, s1.src)
    if s1.inq = [] ∧ p.1 = [] ∧ p.2.eofInd = true then
      .die { l1 with s := { s1 with src := p.2 } }
    else
      let s2 : DState := { s1 with src := p.2, inq := p.1 }
      let r := eng s2.zst s2.inq s2.outbuf_size
      if (r.status).isErr = true then .die { l1 with s := s2 }
      else
        let c := min r.consumed s2.inq.length
        let o := r.out.take s2.outbuf_size
        .cont { l1 with
          ret := (r.status).hintVal
          s := { s2 with
            zst := r.st
            inq := s2.inq.drop c
            outq := o
            actual_len := s2.actual_len + o.length } }

/-- How the zstd read loop as a whole ends. -/
inductive DLoopOut
  | brk (l : DLoopSt)
  | die (l : DLoopSt)
  | spin (l : DLoopSt)
deriving Repr, DecidableEq

/-- The do-while loop of zstdfile_read, driven by fuel. -/
def zstd_loop (eng : DEng) : Nat → DLoopSt → DLoopOut
  | 0, l => .spin l
  | Nat.succ fuel, l =>
    match zstd_step eng l with
    | .cont l1 => zstd_loop eng fuel l1
    | .brk l1 => .brk l1
    | .die l1 => .die l1

/-- The initial loop locals for a zstdfile_read call. -/
def mkDLoop (s : DState) (size : Nat) : DLoopSt :=
  { s := s, ret := 0, ignorebytes := s.logic_offset - s.decode_offset,
    size := size, total := 0, acc := [] }

/-- zstdfile_read (zstdfile.c lines 204-328): a size-0 request returns 0
at once; at eof return 0; otherwise run the decode loop and return the
accumulated total (there is no trailer step and no sticky truncation:
truncation and decode errors are fatal). -/
def zstdfile_read (eng : DEng) (fuel : Nat) (s : DState) (size : Nat) : DReadOut :=
  if size = 0 then { res := .ok 0, bytes := [], st := s }
  else if s.eof = true then { res := .ok 0, bytes := [], st := s }
  else
    match zstd_loop eng fuel (mkDLoop s size) with
    | .brk l => { res := .ok l.total, bytes := l.acc, st := l.s }
    | .die l => { res := .fatal, bytes := l.acc, st := l.s }
    | .spin l => { res := .spin, bytes := l.acc, st := l.s }

/-- The forward-seek emulation loop of zstdfile_seek (zstdfile.c lines
367-384). -/
def zstd_skip (eng : DEng) (rf : Nat) : Nat → Nat → DState → SeekRes × DState
  | 0, _, s => (.sspin, s)
  | Nat.succ fuel, target, s =>
    if s.logic_offset < target then
      let diff := min (32 * 1024) (target - s.logic_offset)
      let o := zstdfile_read eng rf s diff
      match o.res with
      | .ok 0 => (.sok (o.st.logic_offset : Int), o.st)
      | .ok (Nat.succ _) => zstd_skip eng rf fuel target o.st
      | .rerr _ => (.serr, o.st)
      | .fatal => (.sfatal, o.st)
      | .spin => (.sspin, o.st)
    else (.sok (target : Int), s)

/-- zstdfile_seek (zstdfile.c lines 330-391): identical contract to
zfile_seek; the rewind path resets the offsets, frees and recreates the
decoder, and rewinds the source to offset 0. -/
def zstdfile_seek (eng : DEng) (rf sf : Nat) (s : DState) (offset : Int)
    (w : Whence) : SeekRes × DState :=
  match resolvedTarget s.logic_offset offset w with
  | none => (.serr, s)
  | some t =>
    if t < 0 then (.serr, s)
    else if t < (s.logic_offset : Int) ∧ t ≠ 0 then (.serr, s)
    else if t = 0 then
      (.sok 0, zstdfile_init s.inbuf_size s.outbuf_size
        { s.src with pos := 0, eofInd := false })
    else if (s.logic_offset : Int) < t then zstd_skip eng rf sf t.toNat s
    else (.sok t, s)

/-- Result of zstdopen, mirroring OpenRes for the zstd cookie type. -/
inductive DOpenRes
  | fail (errno : Option Nat)
  | passthrough (f : SrcFile)
  | wrapped (insz outsz : Nat) (s : DState)
deriving Repr, DecidableEq

/-- Outcome of zstdopen on a path. -/
structure DPOpenOut where
  res : DOpenRes
  openedSource : Bool
  closedSource : Bool
deriving Repr, DecidableEq

/-- zstdopen (zstdfile.c lines 139-200): modes containing w or a are
rejected with EINVAL before fopen; then the 4 magic bytes are read and
the stream rewound; a magic mismatch hands back the raw FILE; otherwise
the cookie is built (buffer sizes come from the zstd library, so the
model takes them as parameters). -/
def zstdopen (insz outsz : Nat) (fs : Option (List Nat)) (mode : List Char) : DPOpenOut :=
  if mode.contains 'w' || mode.contains 'a' then
    { res := .fail (some EINVAL), openedSource := false, closedSource := false }
  else
    match fopen fs mode with
    | none => { res := .fail none, openedSource := false, closedSource := false }
    | some f =>
      let p := fread f 4
      if p.1.length < 4 then
        { res := .fail none, openedSource := true, closedSource := true }
      else
        let f1 : SrcFile := { p.2 with pos := 0, eofInd := false }
        if le32 p.1 ≠ ZSTD_MAGICNUMBER then
          { res := .passthrough f1, openedSource := true, closedSource := false }
        else
          { res := .wrapped insz outsz (zstdfile_init insz outsz f1),
            openedSource := true, closedSource := false }

/-- The results and bytes of a sequence of reads with the given request
sizes, starting from a given stream state. -/
def zreadSeq (eng : Eng) (crcF : CrcF) (fuel : Nat) : ZState → List Nat → List (RRes × List Nat)
  | _, [] => []
  | s, n :: ns =>
    let o := zfile_read eng crcF fuel s n
    (o.res, o.bytes) :: zreadSeq eng crcF fuel o.st ns

/-- The results and bytes of a sequence of zstd reads. -/
def dreadSeq (eng : DEng) (fuel : Nat) : DState → List Nat → List (RRes × List Nat)
  | _, [] => []
  | s, n :: ns =>
    let o := zstdfile_read eng fuel s n
    (o.res, o.bytes) :: dreadSeq eng fuel o.st ns

/-- The stream state carried by the outcome of one zstd loop iteration. -/
def dstepState : DLoopStep → DState
  | .cont l => l.s
  | .brk l => l.s
  | .die l => l.s

/-! Concrete instances used to evaluate the model on explicit inputs:
small files, toy decompression engines (valid instances of the abstract
engine interface), and a toy checksum function. -/

/-- A well-formed 10-byte gzip header (magic plus zero flags/mtime). -/
def hdr10 : List Nat := [31, 139, 8, 0, 0, 0, 0, 0, 0, 0]

/-- A toy checksum accumulator. -/
def crcX : CrcF := fun c l => c + l.sum + l.length

/-- An inflate engine that never consumes or produces anything. -/
def engId : Eng := fun st _ _ => { st := st, consumed := 0, out := [], status := .zok }

/-- An inflate engine whose compressed stream is 4 bytes long and
decodes to the two bytes 7, 9: it consumes 4 input bytes, emits the
output and reports stream end, leaving any further input unread. -/
def engC1 : Eng := fun st _ _ => { st := st, consumed := 4, out := [7, 9], status := .streamEnd }

/-- An inflate engine that consumes all pending input, emits 7, 9 and
reports stream end. -/
def engC2 : Eng :=
  fun st inp _ => { st := st, consumed := inp.length, out := [7, 9], status := .streamEnd }

/-- An inflate engine that consumes all pending input and emits 7, 9
without reaching stream end. -/
def engC4 : Eng :=
  fun st inp _ => { st := st, consumed := inp.length, out := [7, 9], status := .zok }

/-- A zstd engine that consumes all pending input and finishes a frame
(returns 0) each step. -/
def engD : DEng :=
  fun st inp _ => { st := st, consumed := inp.length, out := [], status := .hint 0 }

/-- Gzip file for the C1 witness: header, 4 compressed bytes, then a
trailer with a wrong non-zero checksum (9) and the correct length (2). -/
def dataC1 : List Nat := hdr10 ++ [1, 2, 3, 4] ++ [9, 0, 0, 0] ++ [2, 0, 0, 0]

/-- Gzip file truncated right after the compressed data: no trailer. -/
def dataC2 : List Nat := hdr10 ++ [1, 2, 3, 4]

/-- Gzip file truncated right after the header: no compressed data. -/
def dataC7 : List Nat := hdr10

/-- The loop locals at which the read loop of the C1 witness run breaks:
two bytes were delivered, the engine reported stream end, and the whole
8-byte trailer is still buffered in the zlib input. -/
def lC1 : LoopSt :=
  { s := { src := { data := dataC1, pos := 22, eofInd := true }
           logic_offset := 2
           decode_offset := 2
           actual_len := 2
           zst := 0
           inq := [9, 0, 0, 0, 2, 0, 0, 0]
           outq := []
           crc := 18
           eof := true
           truncated := false }
    ret := ZStatus.streamEnd
    ignorebytes := 0
    size := 3
    total := 2
    acc := [7, 9]
    warns := [] }

/-- A reachable-shaped gzip state with a recorded truncation that has
not yet been surfaced as an error. -/
def sTr : ZState :=
  { src := { data := dataC2, pos := 14, eofInd := true }
    logic_offset := 2
    decode_offset := 2
    actual_len := 2
    zst := 0
    inq := []
    outq := []
    crc := 18
    eof := false
    truncated := true }

/-- A gzip state at end of stream. -/
def sEof : ZState :=
  { src := { data := dataC1, pos := 22, eofInd := true }
    logic_offset := 2
    decode_offset := 2
    actual_len := 2
    zst := 0
    inq := []
    outq := []
    crc := 18
    eof := true
    truncated := false }

/-- Zstd loop locals between frames with the source exhausted: last
decompress step returned 0, all buffered input consumed, file position
at the file size. -/
def lD0 : DLoopSt :=
  { s := { src := { data := [1, 2, 3, 4], pos := 4, eofInd := false }
           logic_offset := 0
           decode_offset := 0
           actual_len := 0
           zst := 0
           inq := []
           outq := []
           inbuf_size := 8
           outbuf_size := 8
           eof := false }
    ret := 0
    ignorebytes := 0
    size := 1
    total := 0
    acc := [] }

/-- Zstd loop locals between frames with more of the source left: same
as lD0 but the file position is short of the file size. -/
def lD1 : DLoopSt :=
  { s := { src := { data := [1, 2, 3, 4], pos := 2, eofInd := false }
           logic_offset := 0
           decode_offset := 0
           actual_len := 0
           zst := 0
           inq := []
           outq := []
           inbuf_size := 8
           outbuf_size := 8
           eof := false }
    ret := 0
    ignorebytes := 0
    size := 1
    total := 0
    acc := [] }

/-- Bookkeeping facts relating the loop locals of zfile_read to the
state s0 and the request size0 the call was entered with. -/
def LCore (s0 : ZState) (size0 : Nat) (l : LoopSt) : Prop :=
  l.s.decode_offset = l.s.logic_offset ∧
  l.s.actual_len = l.s.decode_offset + l.s.outq.length ∧
  l.s.logic_offset = s0.logic_offset + l.total ∧
  l.total + l.size = size0

/-- Precondition of a read loop iteration. -/
def LPre (s0 : ZState) (size0 : Nat) (l : LoopSt) : Prop :=
  LCore s0 size0 l ∧ l.ignorebytes = 0 ∧ l.s.eof = false ∧ l.s.truncated = false

/-- What holds about the loop locals when the read loop ends, by exit
kind. -/
def LoopPost (s0 : ZState) (size0 : Nat) : LoopOut → Prop
  | .brk l => LCore s0 size0 l ∧ l.s.truncated = false ∧
      ((l.size = 0 ∧ l.s.eof = false) ∨ (l.s.eof = true ∧ l.s.outq = [] ∧ 0 < l.size))
  | .toOut l => LCore s0 size0 l ∧ l.s.truncated = true ∧ l.s.eof = false ∧ l.s.outq = []
  | .die l => LCore s0 size0 l ∧ l.s.truncated = false ∧ l.s.eof = false
  | .spin l => LCore s0 size0 l ∧ l.s.truncated = false ∧ l.s.eof = false

/-- The data-model invariant of the gzip Stream Handle (section 3 of the
spec): the decode cursor coincides with the logical cursor at operation
boundaries (this backend discards seek-skipped bytes inside the same
read call), actual_len counts delivered plus still-buffered output, and
in either terminal state the output buffer is empty. -/
def InvG (s : ZState) : Prop :=
  s.decode_offset = s.logic_offset ∧
  s.actual_len = s.decode_offset + s.outq.length ∧
  (s.eof = true → s.outq = []) ∧
  (s.truncated = true → s.outq = [])

/-- The reachable states of a gzip stream: a fresh cookie,
and anything a read or a seek (with arbitrary engine, checksum function
and fuel) can produce from a reachable state. -/
inductive ReachG : ZState → Prop
  | init (src : SrcFile) : ReachG (zfile_zlib_init src)
  | rd (eng : Eng) (crcF : CrcF) (fuel n : Nat) (s : ZState) :
      ReachG s → ReachG (zfile_read eng crcF fuel s n).st
  | sk (eng : Eng) (crcF : CrcF) (rf sf : Nat) (off : Int) (w : Whence) (s : ZState) :
      ReachG s → ReachG (zfile_seek eng crcF rf sf s off w).2

/-- Bookkeeping facts for the zstdfile_read loop locals. -/
def DCore (s0 : DState) (size0 : Nat) (l : DLoopSt) : Prop :=
  l.s.decode_offset = l.s.logic_offset ∧
  l.s.actual_len = l.s.decode_offset + l.s.outq.length ∧
  l.s.logic_offset = s0.logic_offset + l.total ∧
  l.total + l.size = size0

/-- Precondition of a zstd loop iteration. -/
def DPre (s0 : DState) (size0 : Nat) (l : DLoopSt) : Prop :=
  DCore s0 size0 l ∧ l.ignorebytes = 0 ∧ l.s.eof = false

/-- What holds when the zstd loop ends, by exit kind. -/
def DLoopPost (s0 : DState) (size0 : Nat) : DLoopOut → Prop
  | .brk l => DCore s0 size0 l ∧
      ((l.size = 0 ∧ l.s.eof = false) ∨ (l.s.eof = true ∧ l.s.outq = [] ∧ 0 < l.size))
  | .die l => DCore s0 size0 l ∧ l.s.eof = false
  | .spin l => DCore s0 size0 l ∧ l.s.eof = false

/-- The data-model invariant of the zstd Stream Handle. -/
def InvD (s : DState) : Prop :=
  s.decode_offset = s.logic_offset ∧
  s.actual_len = s.decode_offset + s.outq.length ∧
  (s.eof = true → s.outq = [])

/-- The reachable states of a zstd stream. -/
inductive ReachD : DState → Prop
  | init (insz outsz : Nat) (src : SrcFile) : ReachD (zstdfile_init insz outsz src)
  | rd (eng : DEng) (fuel n : Nat) (s : DState) :
      ReachD s → ReachD (zstdfile_read eng fuel s n).st
  | sk (eng : DEng) (rf sf : Nat) (off : Int) (w : Whence) (s : DState) :
      ReachD s → ReachD (zstdfile_seek eng rf sf s off w).2

/-! Helper lemmas about the drain phase. -/

theorem drain_ig_zero (outq : List Nat) (size : Nat) :
    drain 0 outq size =
      { ignorebytes := 0, outq := outq.drop (min outq.length size), skipped := 0,
        delivered := outq.take (min outq.length size), size := size - min outq.length size } := by
  simp [drain]


theorem drain_outq_of_size (ig : Nat) (outq : List Nat) (size : Nat)
    (h : 0 < (drain ig outq size).size) : (drain ig outq size).outq = [] := by
  unfold drain at h ⊢
  by_cases h1 : 0 < ig - min ig outq.length
  · simp only [if_pos h1] at h ⊢
    have hmin : min ig outq.length = outq.length := by
      rcases le_or_lt ig outq.length with hle | hlt
      · exfalso
        rw [min_eq_left hle] at h1
        omega
      · exact min_eq_right hlt.le
    simp only [hmin, List.drop_length]
  · simp only [if_neg h1] at h ⊢
    have hmin : min (outq.drop (min ig outq.length)).length size =
        (outq.drop (min ig outq.length)).length := by
      rcases le_or_lt (outq.drop (min ig outq.length)).length size with hle | hlt
      · exact min_eq_left hle
      · exfalso
        rw [min_eq_right hlt.le] at h
        omega
    simp only [hmin, List.drop_length]

theorem zfile_step_post (eng : Eng) (crcF : CrcF) (s0 : ZState) (size0 : Nat) (l : LoopSt)
    (h : LPre s0 size0 l) :
    (∀ l1, zfile_step eng crcF l = .cont l1 → LPre s0 size0 l1) ∧
    (∀ l1, zfile_step eng crcF l = .brk l1 → LoopPost s0 size0 (.brk l1)) ∧
    (∀ l1, zfile_step eng crcF l = .toOut l1 → LoopPost s0 size0 (.toOut l1)) ∧
    (∀ l1, zfile_step eng crcF l = .die l1 → LoopPost s0 size0 (.die l1)) := by
  obtain ⟨⟨hde, hal, hlo, hts⟩, hig, heof, htr⟩ := h
  have hmle : min l.s.outq.length l.size ≤ l.s.outq.length := Nat.min_le_left _ _
  have hmls : min l.s.outq.length l.size ≤ l.size := Nat.min_le_right _ _
  have htk : (l.s.outq.take (min l.s.outq.length l.size)).length =
      min l.s.outq.length l.size := by
    rw [List.length_take]
    exact min_eq_left hmle
  have houtq : ¬(l.size - min l.s.outq.length l.size = 0) →
      l.s.outq.drop (min l.s.outq.length l.size) = [] := by
    intro hpos
    have hh := drain_outq_of_size 0 l.s.outq l.size
    rw [drain_ig_zero] at hh
    have hsz : (0:Nat) < l.size - min l.s.outq.length l.size := by omega
    exact hh hsz
  have hql : ¬(l.size - min l.s.outq.length l.size = 0) →
      min l.s.outq.length l.size = l.s.outq.length := by
    intro hpos
    have h2 := houtq hpos
    have h3 := congrArg List.length h2
    simp only [List.length_drop, List.length_nil] at h3
    omega
  refine ⟨?_, ?_, ?_, ?_⟩ <;> intro l1 hstep <;>
    (unfold zfile_step at hstep; rw [hig, drain_ig_zero] at hstep;
     simp only [] at hstep; split_ifs at hstep with c1 c2 c3 c4 c5 c6 c7) <;>
    (try cases hstep) <;>
    simp only [LoopPost, LPre, LCore, List.length_take, List.length_drop]
  · -- cont, input refilled with fread
    have hm := hql c1
    exact ⟨⟨by omega, by omega, by omega, by omega⟩, trivial, heof, htr⟩
  · -- cont, input still pending
    have hm := hql c1
    exact ⟨⟨by omega, by omega, by omega, by omega⟩, trivial, heof, htr⟩
  · -- brk, request satisfied
    exact ⟨⟨by omega, by omega, by omega, by omega⟩, htr, Or.inl ⟨c1, heof⟩⟩
  · -- brk, stream end
    have hm := hql c1
    exact ⟨⟨by omega, by omega, by omega, by omega⟩, htr,
      Or.inr ⟨trivial, houtq c1, by omega⟩⟩
  · -- toOut, truncation detected on refill
    have hm := hql c1
    exact ⟨⟨by omega, by omega, by omega, by omega⟩, trivial, heof, houtq c1⟩
  · -- toOut, impossible: input pending but refill condition holds
    exact absurd c6.1 c3
  · -- die, inflate error after refill
    have hm := hql c1
    exact ⟨⟨by omega, by omega, by omega, by omega⟩, htr, heof⟩
  · -- die, inflate error on pending input
    have hm := hql c1
    exact ⟨⟨by omega, by omega, by omega, by omega⟩, htr, heof⟩



theorem zfile_loop_post (eng : Eng) (crcF : CrcF) (s0 : ZState) (size0 : Nat) :
    ∀ fuel l, LPre s0 size0 l → LoopPost s0 size0 (zfile_loop eng crcF fuel l) := by
  intro fuel
  induction fuel with
  | zero =>
    intro l h
    simp only [zfile_loop, LoopPost]
    exact ⟨h.1, h.2.2.2, h.2.2.1⟩
  | succ fuel ih =>
    intro l h
    have hs := zfile_step_post eng crcF s0 size0 l h
    simp only [zfile_loop]
    rcases hstep : zfile_step eng crcF l with l1 | l1 | l1 | l1 <;> simp only []
    · exact ih l1 (hs.1 l1 hstep)
    · exact hs.2.1 l1 hstep
    · exact hs.2.2.1 l1 hstep
    · exact hs.2.2.2 l1 hstep

theorem zfile_out_eq_pos (s : ZState) (total : Nat) (acc : List Nat) (ws : List Warning)
    (h : 0 < total) :
    zfile_out s total acc ws = { res := .ok total, bytes := acc, st := s, warns := ws } := by
  simp [zfile_out, h]

theorem zfile_out_eq_trunc (s : ZState) (total : Nat) (acc : List Nat) (ws : List Warning)
    (h : total = 0) (ht : s.truncated = true) :
    zfile_out s total acc ws =
      { res := .rerr ENOBUFS, bytes := acc, st := { s with eof := true }, warns := ws } := by
  simp [zfile_out, h, ht]

theorem zfile_out_eq_zero (s : ZState) (total : Nat) (acc : List Nat) (ws : List Warning)
    (h : total = 0) (ht : s.truncated = false) :
    zfile_out s total acc ws = { res := .ok 0, bytes := acc, st := s, warns := ws } := by
  simp [zfile_out, h, ht]

theorem zfile_finish_eq_noeof (s : ZState) (total : Nat) (acc : List Nat) (ws : List Warning)
    (he : s.eof = false) : zfile_finish s total acc ws = zfile_out s total acc ws := by
  simp [zfile_finish, he]

theorem zfile_finish_eq_lost (s : ZState) (total : Nat) (acc : List Nat) (ws : List Warning)
    (he : s.eof = true) (hp : (trailer8 s).1.length < 8) :
    zfile_finish s total acc ws =
      zfile_out { s with src := (trailer8 s).2, truncated := true } total acc
        (ws ++ [Warning.truncLostTrailer]) := by
  simp [zfile_finish, he, hp]

theorem zfile_finish_eq_good (s : ZState) (total : Nat) (acc : List Nat) (ws : List Warning)
    (he : s.eof = true) (hp : ¬(trailer8 s).1.length < 8)
    (hlen : s.actual_len % 4294967296 = le32 (((trailer8 s).1.drop 4).take 4)) :
    zfile_finish s total acc ws =
      zfile_out { s with src := (trailer8 s).2 } total acc
        (ws ++
          (if le32 ((trailer8 s).1.take 4) ≠ 0 then
            (if s.crc ≠ le32 ((trailer8 s).1.take 4) then
              [Warning.crcMismatch s.crc (le32 ((trailer8 s).1.take 4))]
             else [Warning.crcGood s.crc])
           else [])) := by
  simp [zfile_finish, he, hp, hlen]

theorem zfile_finish_eq_fatal (s : ZState) (total : Nat) (acc : List Nat) (ws : List Warning)
    (he : s.eof = true) (hp : ¬(trailer8 s).1.length < 8)
    (hlen : s.actual_len % 4294967296 ≠ le32 (((trailer8 s).1.drop 4).take 4)) :
    zfile_finish s total acc ws =
      { res := .fatal, bytes := acc, st := { s with src := (trailer8 s).2 },
        warns := ws ++
          (if le32 ((trailer8 s).1.take 4) ≠ 0 then
            (if s.crc ≠ le32 ((trailer8 s).1.take 4) then
              [Warning.crcMismatch s.crc (le32 ((trailer8 s).1.take 4))]
             else [Warning.crcGood s.crc])
           else []) } := by
  simp [zfile_finish, he, hp, hlen]


theorem zfile_read_props (eng : Eng) (crcF : CrcF) (fuel : Nat) (s : ZState) (size : Nat)
    (h : InvG s) :
    InvG (zfile_read eng crcF fuel s size).st ∧
    (∀ n, (zfile_read eng crcF fuel s size).res = RRes.ok n →
      n ≤ size ∧
      (zfile_read eng crcF fuel s size).st.logic_offset = s.logic_offset + n ∧
      (0 < size → n = 0 →
        (zfile_read eng crcF fuel s size).st.eof = true ∧
        (zfile_read eng crcF fuel s size).st.logic_offset =
          (zfile_read eng crcF fuel s size).st.actual_len)) := by
  obtain ⟨hde, hal, hef, htf⟩ := h
  by_cases h0 : size = 0
  · simp only [zfile_read, if_pos h0]
    refine ⟨⟨hde, hal, hef, htf⟩, ?_⟩
    intro n hn
    (try simp only [] at hn)
    injection hn with h3
    subst h3
    exact ⟨Nat.zero_le _, by (try simp only []); omega, fun hp _ => absurd h0 (by (try simp only []); omega)⟩
  · by_cases h1 : s.eof = true
    · simp only [zfile_read, if_neg h0, if_pos h1]
      refine ⟨⟨hde, hal, hef, htf⟩, ?_⟩
      intro n hn
      (try simp only [] at hn)
      injection hn with h3
      subst h3
      refine ⟨Nat.zero_le _, by (try simp only []); omega, fun hp _ => ⟨h1, ?_⟩⟩
      have hq := hef h1
      rw [hq] at hal
      simp only [List.length_nil] at hal
      omega
    · have h1' : s.eof = false := by
        rw [Bool.not_eq_true] at h1
        exact h1
      by_cases h2 : s.truncated = true
      · simp only [zfile_read, if_neg h0, if_neg h1, if_pos h2]
        rw [zfile_out_eq_trunc _ _ _ _ rfl h2]
        refine ⟨⟨hde, hal, fun _ => htf h2, fun _ => htf h2⟩, ?_⟩
        intro n hn
        (try simp only [] at hn)
        cases hn
      · have h2' : s.truncated = false := by
          rw [Bool.not_eq_true] at h2
          exact h2
        have hpre : LPre s size (mkLoop s size) := by
          refine ⟨⟨hde, hal, by simp [mkLoop], by simp [mkLoop]⟩, ?_, h1', h2'⟩
          simp only [mkLoop]
          omega
        have hpost := zfile_loop_post eng crcF s size fuel (mkLoop s size) hpre
        simp only [zfile_read, if_neg h0, if_neg h1, if_neg h2]
        rcases hout : zfile_loop eng crcF fuel (mkLoop s size) with l | l | l | l <;>
          rw [hout] at hpost <;> simp only [LoopPost, LCore] at hpost <;> simp only []
        · -- brk
          obtain ⟨⟨lde, lal, llo, lts⟩, ltr, hdisj⟩ := hpost
          rcases hdisj with ⟨hsz, hefl⟩ | ⟨hefl, hq, hsz⟩
          · rw [zfile_finish_eq_noeof _ _ _ _ hefl]
            have htot : 0 < l.total := by (try simp only []); omega
            rw [zfile_out_eq_pos _ _ _ _ htot]
            refine ⟨⟨lde, lal, fun hc => absurd hc (by simp [hefl]),
              fun hc => absurd hc (by simp [ltr])⟩, ?_⟩
            intro n hn
            (try simp only [] at hn)
            injection hn with h3
            subst h3
            exact ⟨by (try simp only []); omega, by (try simp only []); omega, fun hp hz => by (try simp only []); omega⟩
          · by_cases hp : (trailer8 l.s).1.length < 8
            · rw [zfile_finish_eq_lost _ _ _ _ hefl hp]
              by_cases htot : 0 < l.total
              · rw [zfile_out_eq_pos _ _ _ _ htot]
                refine ⟨⟨lde, lal, fun _ => hq, fun _ => hq⟩, ?_⟩
                intro n hn
                (try simp only [] at hn)
                injection hn with h3
                subst h3
                exact ⟨by (try simp only []); omega, by (try simp only []); omega, fun hp hz => by (try simp only []); omega⟩
              · have htot0 : l.total = 0 := by (try simp only []); omega
                rw [zfile_out_eq_trunc _ _ _ _ htot0 rfl]
                refine ⟨⟨lde, lal, fun _ => hq, fun _ => hq⟩, ?_⟩
                intro n hn
                (try simp only [] at hn)
                cases hn
            · by_cases hlen :
                  l.s.actual_len % 4294967296 = le32 (((trailer8 l.s).1.drop 4).take 4)
              · rw [zfile_finish_eq_good _ _ _ _ hefl hp hlen]
                by_cases htot : 0 < l.total
                · rw [zfile_out_eq_pos _ _ _ _ htot]
                  refine ⟨⟨lde, lal, fun _ => hq, fun _ => hq⟩, ?_⟩
                  intro n hn
                  (try simp only [] at hn)
                  injection hn with h3
                  subst h3
                  exact ⟨by (try simp only []); omega, by (try simp only []); omega, fun hp hz => by (try simp only []); omega⟩
                · have htot0 : l.total = 0 := by (try simp only []); omega
                  rw [zfile_out_eq_zero { l.s with src := (trailer8 l.s).2 } _ _ _ htot0 ltr]
                  refine ⟨⟨lde, lal, fun _ => hq, fun _ => hq⟩, ?_⟩
                  intro n hn
                  (try simp only [] at hn)
                  injection hn with h3
                  subst h3
                  refine ⟨Nat.zero_le _, by (try simp only []); omega, fun hpz _ => ⟨hefl, ?_⟩⟩
                  rw [hq] at lal
                  simp only [List.length_nil] at lal
                  show l.s.logic_offset = l.s.actual_len
                  omega
              · rw [zfile_finish_eq_fatal _ _ _ _ hefl hp hlen]
                refine ⟨⟨lde, lal, fun _ => hq, fun _ => hq⟩, ?_⟩
                intro n hn
                (try simp only [] at hn)
                cases hn
        · -- toOut
          obtain ⟨⟨lde, lal, llo, lts⟩, ltr, lef, lq⟩ := hpost
          by_cases htot : 0 < l.total
          · rw [zfile_out_eq_pos _ _ _ _ htot]
            refine ⟨⟨lde, lal, fun hc => absurd hc (by simp [lef]), fun _ => lq⟩, ?_⟩
            intro n hn
            (try simp only [] at hn)
            injection hn with h3
            subst h3
            exact ⟨by (try simp only []); omega, by (try simp only []); omega, fun hp hz => by (try simp only []); omega⟩
          · have htot0 : l.total = 0 := by (try simp only []); omega
            rw [zfile_out_eq_trunc _ _ _ _ htot0 ltr]
            refine ⟨⟨lde, lal, fun _ => lq, fun _ => lq⟩, ?_⟩
            intro n hn
            (try simp only [] at hn)
            cases hn
        · -- die
          obtain ⟨⟨lde, lal, llo, lts⟩, ltr, lef⟩ := hpost
          refine ⟨⟨lde, lal, fun hc => absurd hc (by simp [lef]),
            fun hc => absurd hc (by simp [ltr])⟩, ?_⟩
          intro n hn
          (try simp only [] at hn)
          cases hn
        · -- spin
          obtain ⟨⟨lde, lal, llo, lts⟩, ltr, lef⟩ := hpost
          refine ⟨⟨lde, lal, fun hc => absurd hc (by simp [lef]),
            fun hc => absurd hc (by simp [ltr])⟩, ?_⟩
          intro n hn
          (try simp only [] at hn)
          cases hn


theorem zfile_skip_props (eng : Eng) (crcF : CrcF) (rf : Nat) :
    ∀ sf target s, InvG s → s.logic_offset ≤ target →
      InvG (zfile_skip eng crcF rf sf target s).2 ∧
      (∀ r, (zfile_skip eng crcF rf sf target s).1 = SeekRes.sok r →
        r = ((zfile_skip eng crcF rf sf target s).2.logic_offset : Int) ∧
        ((zfile_skip eng crcF rf sf target s).2.logic_offset = target ∨
          ((zfile_skip eng crcF rf sf target s).2.eof = true ∧
           (zfile_skip eng crcF rf sf target s).2.logic_offset =
             (zfile_skip eng crcF rf sf target s).2.actual_len))) := by
  intro sf
  induction sf with
  | zero =>
    intro target s hinv hle
    simp only [zfile_skip]
    exact ⟨hinv, fun r hr => by cases hr⟩
  | succ sf ih =>
    intro target s hinv hle
    by_cases hlt : s.logic_offset < target
    · have hr := zfile_read_props eng crcF rf s
        (min (32 * 1024) (target - s.logic_offset)) hinv
      have hpos : 0 < min (32 * 1024) (target - s.logic_offset) := by omega
      simp only [zfile_skip, if_pos hlt]
      rcases ho : zfile_read eng crcF rf s (min (32 * 1024) (target - s.logic_offset))
        with ⟨res, bytes, st, warns⟩
      rw [ho] at hr
      simp only [] at hr ⊢
      rcases res with n | e | _ | _
      · rcases n with _ | m
        · obtain ⟨hn1, hn2, hn3⟩ := hr.2 0 rfl
          obtain ⟨he1, he2⟩ := hn3 hpos rfl
          simp only []
          refine ⟨hr.1, fun r hrr => ?_⟩
          injection hrr with h3
          subst h3
          exact ⟨rfl, Or.inr ⟨he1, he2⟩⟩
        · obtain ⟨hn1, hn2, _⟩ := hr.2 (m + 1) rfl
          simp only []
          exact ih target st hr.1 (by omega)
      · exact ⟨hr.1, fun r hrr => by cases hrr⟩
      · exact ⟨hr.1, fun r hrr => by cases hrr⟩
      · exact ⟨hr.1, fun r hrr => by cases hrr⟩
    · simp only [zfile_skip, if_neg hlt]
      have heq : s.logic_offset = target := by omega
      refine ⟨hinv, fun r hrr => ?_⟩
      injection hrr with h3
      subst h3
      exact ⟨by rw [heq], Or.inl heq⟩


theorem zfile_seek_props (eng : Eng) (crcF : CrcF) (rf sf : Nat) (s : ZState) (off : Int)
    (w : Whence) (hinv : InvG s) : InvG (zfile_seek eng crcF rf sf s off w).2 := by
  cases hres : resolvedTarget s.logic_offset off w with
  | none =>
    simp only [zfile_seek, hres]
    exact hinv
  | some t =>
    simp only [zfile_seek, hres]
    split_ifs with c1 c2 c3 c4
    · exact hinv
    · exact hinv
    · simp [InvG, zfile_zlib_init]
    · exact (zfile_skip_props eng crcF rf sf t.toNat s hinv (by omega)).1
    · exact hinv

theorem reachG_invG (s : ZState) (h : ReachG s) : InvG s := by
  induction h with
  | init src => simp [InvG, zfile_zlib_init]
  | rd eng crcF fuel n s _ ih => exact (zfile_read_props eng crcF fuel s n ih).1
  | sk eng crcF rf sf off w s _ ih => exact zfile_seek_props eng crcF rf sf s off w ih


/-! The same loop invariants for the zstd backend. -/

theorem zstd_step_post (eng : DEng) (s0 : DState) (size0 : Nat) (l : DLoopSt)
    (h : DPre s0 size0 l) :
    (∀ l1, zstd_step eng l = .cont l1 → DPre s0 size0 l1) ∧
    (∀ l1, zstd_step eng l = .brk l1 → DLoopPost s0 size0 (.brk l1)) ∧
    (∀ l1, zstd_step eng l = .die l1 → DLoopPost s0 size0 (.die l1)) := by
  obtain ⟨⟨hde, hal, hlo, hts⟩, hig, heof⟩ := h
  have hmle : min l.s.outq.length l.size ≤ l.s.outq.length := Nat.min_le_left _ _
  have hmls : min l.s.outq.length l.size ≤ l.size := Nat.min_le_right _ _
  have houtq : ¬(l.size - min l.s.outq.length l.size = 0) →
      l.s.outq.drop (min l.s.outq.length l.size) = [] := by
    intro hpos
    have hh := drain_outq_of_size 0 l.s.outq l.size
    rw [drain_ig_zero] at hh
    have hsz : (0:Nat) < l.size - min l.s.outq.length l.size := by omega
    exact hh hsz
  have hql : ¬(l.size - min l.s.outq.length l.size = 0) →
      min l.s.outq.length l.size = l.s.outq.length := by
    intro hpos
    have h2 := houtq hpos
    have h3 := congrArg List.length h2
    simp only [List.length_drop, List.length_nil] at h3
    omega
  refine ⟨?_, ?_, ?_⟩ <;> intro l1 hstep <;>
    (unfold zstd_step at hstep; rw [hig, drain_ig_zero] at hstep;
     simp only [] at hstep; split_ifs at hstep with c1 c2 c3 c4 c5 c6 c7) <;>
    (try cases hstep) <;>
    simp only [DLoopPost, DPre, DCore, List.length_take, List.length_drop]
  · -- cont, input refilled with fread
    have hm := hql c1
    exact ⟨⟨by omega, by omega, by omega, by omega⟩, trivial, heof⟩
  · -- cont, input still pending
    have hm := hql c1
    exact ⟨⟨by omega, by omega, by omega, by omega⟩, trivial, heof⟩
  · -- brk, request satisfied
    exact ⟨⟨by omega, by omega, by omega, by omega⟩, Or.inl ⟨c1, heof⟩⟩
  · -- brk, end of stream detected
    have hm := hql c1
    exact ⟨⟨by omega, by omega, by omega, by omega⟩,
      Or.inr ⟨trivial, houtq c1, by omega⟩⟩
  · -- die, truncation on refill
    have hm := hql c1
    exact ⟨⟨by omega, by omega, by omega, by omega⟩, heof⟩
  · -- die, decompress error after refill
    have hm := hql c1
    exact ⟨⟨by omega, by omega, by omega, by omega⟩, heof⟩
  · -- die, impossible: input pending but refill condition holds
    exact absurd c6.1 c3
  · -- die, decompress error on pending input
    have hm := hql c1
    exact ⟨⟨by omega, by omega, by omega, by omega⟩, heof⟩

theorem zstd_loop_post (eng : DEng) (s0 : DState) (size0 : Nat) :
    ∀ fuel l, DPre s0 size0 l → DLoopPost s0 size0 (zstd_loop eng fuel l) := by
  intro fuel
  induction fuel with
  | zero =>
    intro l h
    simp only [zstd_loop, DLoopPost]
    exact ⟨h.1, h.2.2⟩
  | succ fuel ih =>
    intro l h
    have hs := zstd_step_post eng s0 size0 l h
    simp only [zstd_loop]
    rcases hstep : zstd_step eng l with l1 | l1 | l1 <;> simp only []
    · exact ih l1 (hs.1 l1 hstep)
    · exact hs.2.1 l1 hstep
    · exact hs.2.2 l1 hstep

theorem zstdfile_read_props (eng : DEng) (fuel : Nat) (s : DState) (size : Nat)
    (h : InvD s) :
    InvD (zstdfile_read eng fuel s size).st ∧
    (∀ n, (zstdfile_read eng fuel s size).res = RRes.ok n →
      n ≤ size ∧
      (zstdfile_read eng fuel s size).st.logic_offset = s.logic_offset + n ∧
      (0 < size → n = 0 →
        (zstdfile_read eng fuel s size).st.eof = true ∧
        (zstdfile_read eng fuel s size).st.logic_offset =
          (zstdfile_read eng fuel s size).st.actual_len)) := by
  obtain ⟨hde, hal, hef⟩ := h
  by_cases h0 : size = 0
  · simp only [zstdfile_read, if_pos h0]
    refine ⟨⟨hde, hal, hef⟩, ?_⟩
    intro n hn
    injection hn with h3
    subst h3
    exact ⟨Nat.zero_le _, by omega, fun hp _ => absurd h0 (by omega)⟩
  · by_cases h1 : s.eof = true
    · simp only [zstdfile_read, if_neg h0, if_pos h1]
      refine ⟨⟨hde, hal, hef⟩, ?_⟩
      intro n hn
      injection hn with h3
      subst h3
      refine ⟨Nat.zero_le _, by omega, fun hp _ => ⟨h1, ?_⟩⟩
      have hq := hef h1
      rw [hq] at hal
      simp only [List.length_nil] at hal
      omega
    · have h1' : s.eof = false := by
        rw [Bool.not_eq_true] at h1
        exact h1
      have hpre : DPre s size (mkDLoop s size) := by
        refine ⟨⟨hde, hal, by simp [mkDLoop], by simp [mkDLoop]⟩, ?_, h1'⟩
        simp only [mkDLoop]
        omega
      have hpost := zstd_loop_post eng s size fuel (mkDLoop s size) hpre
      simp only [zstdfile_read, if_neg h0, if_neg h1]
      rcases hout : zstd_loop eng fuel (mkDLoop s size) with l | l | l <;>
        rw [hout] at hpost <;> simp only [DLoopPost, DCore] at hpost <;> simp only []
      · -- brk
        obtain ⟨⟨lde, lal, llo, lts⟩, hdisj⟩ := hpost
        rcases hdisj with ⟨hsz, hefl⟩ | ⟨hefl, hq, hsz⟩
        · refine ⟨⟨lde, lal, fun hc => absurd hc (by simp [hefl])⟩, ?_⟩
          intro n hn
          injection hn with h3
          subst h3
          exact ⟨by omega, by omega, fun hp hz => by omega⟩
        · refine ⟨⟨lde, lal, fun _ => hq⟩, ?_⟩
          intro n hn
          injection hn with h3
          subst h3
          refine ⟨by omega, by omega, fun hp hz => ⟨hefl, ?_⟩⟩
          rw [hq] at lal
          simp only [List.length_nil] at lal
          show l.s.logic_offset = l.s.actual_len
          omega
      · -- die
        obtain ⟨⟨lde, lal, llo, lts⟩, lef⟩ := hpost
        refine ⟨⟨lde, lal, fun hc => absurd hc (by simp [lef])⟩, ?_⟩
        intro n hn
        cases hn
      · -- spin
        obtain ⟨⟨lde, lal, llo, lts⟩, lef⟩ := hpost
        refine ⟨⟨lde, lal, fun hc => absurd hc (by simp [lef])⟩, ?_⟩
        intro n hn
        cases hn

theorem zstd_skip_props (eng : DEng) (rf : Nat) :
    ∀ sf target s, InvD s → s.logic_offset ≤ target →
      InvD (zstd_skip eng rf sf target s).2 ∧
      (∀ r, (zstd_skip eng rf sf target s).1 = SeekRes.sok r →
        r = ((zstd_skip eng rf sf target s).2.logic_offset : Int) ∧
        ((zstd_skip eng rf sf target s).2.logic_offset = target ∨
          ((zstd_skip eng rf sf target s).2.eof = true ∧
           (zstd_skip eng rf sf target s).2.logic_offset =
             (zstd_skip eng rf sf target s).2.actual_len))) := by
  intro sf
  induction sf with
  | zero =>
    intro target s hinv hle
    simp only [zstd_skip]
    exact ⟨hinv, fun r hr => by cases hr⟩
  | succ sf ih =>
    intro target s hinv hle
    by_cases hlt : s.logic_offset < target
    · have hr := zstdfile_read_props eng rf s
        (min (32 * 1024) (target - s.logic_offset)) hinv
      have hpos : 0 < min (32 * 1024) (target - s.logic_offset) := by omega
      simp only [zstd_skip, if_pos hlt]
      rcases ho : zstdfile_read eng rf s (min (32 * 1024) (target - s.logic_offset))
        with ⟨res, bytes, st⟩
      rw [ho] at hr
      simp only [] at hr ⊢
      rcases res with n | e | _ | _
      · rcases n with _ | m
        · obtain ⟨hn1, hn2, hn3⟩ := hr.2 0 rfl
          obtain ⟨he1, he2⟩ := hn3 hpos rfl
          simp only []
          refine ⟨hr.1, fun r hrr => ?_⟩
          injection hrr with h3
          subst h3
          exact ⟨rfl, Or.inr ⟨he1, he2⟩⟩
        · obtain ⟨hn1, hn2, _⟩ := hr.2 (m + 1) rfl
          simp only []
          exact ih target st hr.1 (by omega)
      · exact ⟨hr.1, fun r hrr => by cases hrr⟩
      · exact ⟨hr.1, fun r hrr => by cases hrr⟩
      · exact ⟨hr.1, fun r hrr => by cases hrr⟩
    · simp only [zstd_skip, if_neg hlt]
      have heq : s.logic_offset = target := by omega
      refine ⟨hinv, fun r hrr => ?_⟩
      injection hrr with h3
      subst h3
      exact ⟨by rw [heq], Or.inl heq⟩

theorem zstdfile_seek_props (eng : DEng) (rf sf : Nat) (s : DState) (off : Int)
    (w : Whence) (hinv : InvD s) : InvD (zstdfile_seek eng rf sf s off w).2 := by
  cases hres : resolvedTarget s.logic_offset off w with
  | none =>
    simp only [zstdfile_seek, hres]
    exact hinv
  | some t =>
    simp only [zstdfile_seek, hres]
    split_ifs with c1 c2 c3 c4
    · exact hinv
    · exact hinv
    · simp [InvD, zstdfile_init]
    · exact (zstd_skip_props eng rf sf t.toNat s hinv (by omega)).1
    · exact hinv

theorem reachD_invD (s : DState) (h : ReachD s) : InvD s := by
  induction h with
  | init insz outsz src => simp [InvD, zstdfile_init]
  | rd eng fuel n s _ ih => exact (zstdfile_read_props eng fuel s n ih).1
  | sk eng rf sf off w s _ ih => exact zstdfile_seek_props eng rf sf s off w ih


theorem drain_nil (ig size : Nat) :
    drain ig [] size =
      { ignorebytes := ig, outq := [], skipped := 0, delivered := [], size := size } := by
  simp only [drain, List.length_nil, Nat.min_zero, List.drop_nil, List.take_nil,
    Nat.sub_zero, Nat.min_zero]
  split_ifs with h
  · rfl
  · have hig : ig = 0 := by omega
    simp [hig]

/-! The claims. -/

/-- C10: a read request of size 0 returns 0 immediately and leaves the
entire stream state unchanged on both backends, even when the stream is
not at end-of-stream and even when the truncated flag is set; no error
is surfaced by that call. -/
theorem C10_zero_read_noop :
    (∀ (eng : Eng) (crcF : CrcF) (fuel : Nat) (s : ZState),
      zfile_read eng crcF fuel s 0 =
        { res := RRes.ok 0, bytes := [], st := s, warns := [] }) ∧
    (∀ (eng : DEng) (fuel : Nat) (s : DState),
      zstdfile_read eng fuel s 0 = { res := RRes.ok 0, bytes := [], st := s }) :=
  ⟨fun eng crcF fuel s => by simp [zfile_read],
   fun eng fuel s => by simp [zstdfile_read]⟩

/-- C3: a seek with whence SEEK_END, or one whose resolved target is
strictly below the current logic_offset and non-zero (negative targets
included), returns an error and leaves the stream state unchanged, on
both backends. -/
theorem C3_illegal_seek_rejected :
    (∀ (eng : Eng) (crcF : CrcF) (rf sf : Nat) (s : ZState) (off : Int) (w : Whence),
      (w = Whence.endW ∨
        (∃ t, resolvedTarget s.logic_offset off w = some t ∧
          t < (s.logic_offset : Int) ∧ t ≠ 0)) →
      zfile_seek eng crcF rf sf s off w = (SeekRes.serr, s)) ∧
    (∀ (eng : DEng) (rf sf : Nat) (s : DState) (off : Int) (w : Whence),
      (w = Whence.endW ∨
        (∃ t, resolvedTarget s.logic_offset off w = some t ∧
          t < (s.logic_offset : Int) ∧ t ≠ 0)) →
      zstdfile_seek eng rf sf s off w = (SeekRes.serr, s)) := by
  constructor
  · intro eng crcF rf sf s off w h
    rcases h with hw | ⟨t, ht, hlt, hne⟩
    · subst hw
      simp [zfile_seek, resolvedTarget]
    · simp only [zfile_seek, ht]
      by_cases hneg : t < 0
      · simp [hneg]
      · rw [if_neg hneg, if_pos ⟨hlt, hne⟩]
  · intro eng rf sf s off w h
    rcases h with hw | ⟨t, ht, hlt, hne⟩
    · subst hw
      simp [zstdfile_seek, resolvedTarget]
    · simp only [zstdfile_seek, ht]
      by_cases hneg : t < 0
      · simp [hneg]
      · rw [if_neg hneg, if_pos ⟨hlt, hne⟩]

/-- Witness for C3 at a concrete input: SEEK_END on a fresh stream. -/
theorem C3_illegal_seek_rejected_witness :
    zfile_seek engId crcX 1 1 (zfile_fresh [1, 2, 3]) 0 Whence.endW =
      (SeekRes.serr, zfile_fresh [1, 2, 3]) :=
  C3_illegal_seek_rejected.1 engId crcX 1 1 (zfile_fresh [1, 2, 3]) 0 Whence.endW (Or.inl rfl)

/-- C6: in every reachable stream state of either backend,
decode_offset is at least logic_offset (in this implementation the two
cursors in fact coincide at every public-operation boundary, because a
forward seek discards skipped bytes inside the read call it delegates
to, so the gap of decoded-but-undelivered bytes is zero there). -/
theorem C6_decode_ge_logic :
    (∀ s, ReachG s → s.logic_offset ≤ s.decode_offset) ∧
    (∀ s, ReachD s → s.logic_offset ≤ s.decode_offset) := by
  constructor
  · intro s h
    obtain ⟨h1, -, -, -⟩ := reachG_invG s h
    omega
  · intro s h
    obtain ⟨h1, -, -⟩ := reachD_invD s h
    omega

/-- Witness for C6 at a concrete reachable state. -/
theorem C6_decode_ge_logic_witness :
    (zfile_read engId crcX 1 (zfile_fresh dataC7) 3).st.logic_offset ≤
      (zfile_read engId crcX 1 (zfile_fresh dataC7) 3).st.decode_offset :=
  C6_decode_ge_logic.1 _
    (ReachG.rd engId crcX 1 3 _ (ReachG.init { data := dataC7, pos := 0, eofInd := false }))

/-- C8: the zstd backend declares end-of-stream exactly when the last
decompress step returned 0 (a completed frame), the decoder has
consumed all buffered input, and the source position equals the file
size; otherwise the iteration goes on to read and decode more input, so
concatenated frames decode in sequence. -/
theorem C8_zstd_eof_iff :
    ∀ (eng : DEng) (l : DLoopSt),
      l.s.outq = [] → l.s.eof = false → 0 < l.size →
      ((dstepState (zstd_step eng l)).eof = true ↔
        (l.ret = 0 ∧ l.s.inq = [] ∧ l.s.src.pos = l.s.src.data.length)) := by
  intro eng l hq hef hsz
  have h0 : ¬(l.size = 0) := by omega
  unfold zstd_step
  rw [hq, drain_nil]
  simp only []
  by_cases hc : l.ret = 0 ∧ l.s.inq = [] ∧ l.s.src.pos = l.s.src.data.length
  · rw [if_neg h0, if_pos hc]
    exact iff_of_true rfl hc
  · rw [if_neg h0, if_neg hc]
    refine iff_of_false ?_ hc
    split_ifs with d1 d2 <;> simp [dstepState, hef]

/-- Witness for C8: with all three conditions met the step declares
end-of-stream (lD0); the companion state lD1 differs only in the file
position and the step does not declare it. -/
theorem C8_zstd_eof_iff_witness :
    (dstepState (zstd_step engD lD0)).eof = true ∧
    (dstepState (zstd_step engD lD1)).eof = false := by
  constructor
  · exact (C8_zstd_eof_iff engD lD0 rfl rfl (by decide)).mpr (by decide)
  · have h := C8_zstd_eof_iff engD lD1 rfl rfl (by decide)
    have h2 : ¬(lD1.ret = 0 ∧ lD1.s.inq = [] ∧ lD1.s.src.pos = lD1.s.src.data.length) := by
      decide
    rcases hb : (dstepState (zstd_step engD lD1)).eof with _ | _
    · rfl
    · exact absurd (h.mp hb) h2


/-- C9 counterexample: with mode w, zopen does open the underlying file
(fopen runs before the mode check and, with w, truncates or creates the
file), even though the call then fails with EINVAL as the claim says;
so the open is not without opening the underlying source. -/
theorem C9_cex :
    (zopen (some [1, 2, 3]) ['w']).openedSource = true ∧
    (zopen (some [1, 2, 3]) ['w']).res =
      OpenRes.fail (some EINVAL) { data := [], pos := 0, eofInd := false } := by
  constructor
  · rfl
  · rfl

/-- C9 as amended: for every mode containing w or a, all three opens
fail with errno EINVAL and return no stream; zopenfile does so without
reading from the stream it was handed (which it returns untouched), and
zstdopen without calling fopen at all; zopen, however, fopens the path
first (and closes it again) because its mode check sits inside
zopenfile. -/
theorem C9_mode_rejected :
    ∀ (mode : List Char), (mode.contains 'w' || mode.contains 'a') = true →
      (∀ f, zopenfile f mode = OpenRes.fail (some EINVAL) f) ∧
      (∀ insz outsz fs, zstdopen insz outsz fs mode =
        { res := DOpenRes.fail (some EINVAL), openedSource := false,
          closedSource := false }) ∧
      (∀ fs, ∃ f0, zopen fs mode =
        { res := OpenRes.fail (some EINVAL) f0, openedSource := true,
          closedSource := true }) := by
  intro mode hm
  refine ⟨fun f => ?_, fun insz outsz fs => ?_, fun fs => ?_⟩
  · simp only [zopenfile, hm]
    rfl
  · simp only [zstdopen, hm]
    rfl
  · have hw : mode.contains 'w' = true ∨ mode.contains 'a' = true := by
      simpa only [Bool.or_eq_true] using hm
    unfold zopen fopen
    rcases hcw : mode.contains 'w' with _ | _
    · have hca : mode.contains 'a' = true := by
        rcases hw with h | h
        · rw [hcw] at h
          cases h
        · exact h
      refine ⟨{ data := fs.getD [], pos := 0, eofInd := false }, ?_⟩
      simp only [hcw, hca, Bool.false_eq_true, if_false, if_true, Option.map_some,
        zopenfile, hm]
      rfl
    · refine ⟨{ data := [], pos := 0, eofInd := false }, ?_⟩
      simp only [hcw, if_true, zopenfile, hm]
      rfl

/-- Witness for C9 as amended, at mode a. -/
theorem C9_mode_rejected_witness :
    zopenfile { data := [9], pos := 0, eofInd := false } ['a'] =
      OpenRes.fail (some EINVAL) { data := [9], pos := 0, eofInd := false } :=
  (C9_mode_rejected ['a'] (by decide)).1 { data := [9], pos := 0, eofInd := false }


/-- C5: a seek whose resolved target is 0 rewinds: the resulting stream
state equals that of a freshly opened stream on the same file contents
(all offsets, length and checksum accumulators, flags and decoder state
reset), so every subsequent sequence of reads returns exactly the bytes
a fresh stream would return; this holds on both backends. -/
theorem C5_rewind_fresh :
    (∀ (eng : Eng) (crcF : CrcF) (rf sf : Nat) (s : ZState) (off : Int) (w : Whence),
      resolvedTarget s.logic_offset off w = some 0 →
      zfile_seek eng crcF rf sf s off w = (SeekRes.sok 0, zfile_fresh s.src.data) ∧
      ∀ sizes, zreadSeq eng crcF rf (zfile_seek eng crcF rf sf s off w).2 sizes =
        zreadSeq eng crcF rf (zfile_fresh s.src.data) sizes) ∧
    (∀ (eng : DEng) (rf sf : Nat) (s : DState) (off : Int) (w : Whence),
      resolvedTarget s.logic_offset off w = some 0 →
      zstdfile_seek eng rf sf s off w =
        (SeekRes.sok 0, zstd_fresh s.inbuf_size s.outbuf_size s.src.data) ∧
      ∀ sizes, dreadSeq eng rf (zstdfile_seek eng rf sf s off w).2 sizes =
        dreadSeq eng rf (zstd_fresh s.inbuf_size s.outbuf_size s.src.data) sizes) := by
  constructor
  · intro eng crcF rf sf s off w h
    have h1 : ¬((0:Int) < 0) := by omega
    have h2 : ¬((0:Int) < (s.logic_offset : Int) ∧ (0:Int) ≠ 0) := fun hcon => hcon.2 rfl
    have heq : zfile_seek eng crcF rf sf s off w =
        (SeekRes.sok 0, zfile_fresh s.src.data) := by
      simp only [zfile_seek, h]
      rw [if_neg h1, if_neg h2, if_pos trivial]
      rfl
    exact ⟨heq, fun sizes => by rw [heq]⟩
  · intro eng rf sf s off w h
    have h1 : ¬((0:Int) < 0) := by omega
    have h2 : ¬((0:Int) < (s.logic_offset : Int) ∧ (0:Int) ≠ 0) := fun hcon => hcon.2 rfl
    have heq : zstdfile_seek eng rf sf s off w =
        (SeekRes.sok 0, zstd_fresh s.inbuf_size s.outbuf_size s.src.data) := by
      simp only [zstdfile_seek, h]
      rw [if_neg h1, if_neg h2, if_pos trivial]
      rfl
    exact ⟨heq, fun sizes => by rw [heq]⟩

/-- Witness for C5 at a concrete input. -/
theorem C5_rewind_fresh_witness :
    zfile_seek engId crcX 2 2 (zfile_fresh [1, 2]) 0 Whence.set =
      (SeekRes.sok 0, zfile_fresh [1, 2]) :=
  (C5_rewind_fresh.1 engId crcX 2 2 (zfile_fresh [1, 2]) 0 Whence.set rfl).1

/-- C7 counterexample: a reachable state (fresh stream on a gzip file
that ends right after its header, after one read call) in which the
truncated flag and the eof flag are both true: surfacing the truncation
error deliberately sets eof (part_000 line 404), so the two flags are
not mutually exclusive. -/
theorem C7_cex :
    ReachG (zfile_read engId crcX 4 (zfile_fresh dataC7) 3).st ∧
    (zfile_read engId crcX 4 (zfile_fresh dataC7) 3).st.eof = true ∧
    (zfile_read engId crcX 4 (zfile_fresh dataC7) 3).st.truncated = true :=
  ⟨ReachG.rd engId crcX 4 3 (zfile_fresh dataC7)
      (ReachG.init { data := dataC7, pos := 0, eofInd := false }),
   by decide, by decide⟩

/-- C7 as amended: once eof is true a read produces no further bytes
and leaves the state untouched; reads never clear either flag; and a
seek to 0 resets both flags to false.  The flags are however not
mutually exclusive: surfacing a truncation as an error, or a trailer
truncation found after stream end, leaves both set (see the
counterexample). -/
theorem C7_terminal_flags :
    (∀ (eng : Eng) (crcF : CrcF) (fuel n : Nat) (s : ZState), s.eof = true →
      zfile_read eng crcF fuel s n =
        { res := RRes.ok 0, bytes := [], st := s, warns := [] }) ∧
    (∀ (eng : Eng) (crcF : CrcF) (fuel n : Nat) (s : ZState), s.truncated = true →
      (zfile_read eng crcF fuel s n).st.truncated = true) ∧
    (∀ (eng : Eng) (crcF : CrcF) (fuel n : Nat) (s : ZState), s.eof = true →
      (zfile_read eng crcF fuel s n).st.eof = true) ∧
    (∀ (eng : Eng) (crcF : CrcF) (rf sf : Nat) (s : ZState) (off : Int) (w : Whence),
      resolvedTarget s.logic_offset off w = some 0 →
      (zfile_seek eng crcF rf sf s off w).2.eof = false ∧
      (zfile_seek eng crcF rf sf s off w).2.truncated = false) := by
  have hread : ∀ (eng : Eng) (crcF : CrcF) (fuel n : Nat) (s : ZState), s.eof = true →
      zfile_read eng crcF fuel s n =
        { res := RRes.ok 0, bytes := [], st := s, warns := [] } := by
    intro eng crcF fuel n s h
    by_cases h0 : n = 0
    · simp [zfile_read, h0]
    · simp [zfile_read, h0, h]
  refine ⟨hread, ?_, ?_, ?_⟩
  · intro eng crcF fuel n s ht
    by_cases h0 : n = 0
    · simp only [zfile_read, if_pos h0]
      exact ht
    · by_cases h1 : s.eof = true
      · simp only [zfile_read, if_neg h0, if_pos h1]
        exact ht
      · simp only [zfile_read, if_neg h0, if_neg h1, if_pos ht]
        rw [zfile_out_eq_trunc s 0 [] [] rfl ht]
        exact ht
  · intro eng crcF fuel n s h
    rw [hread eng crcF fuel n s h]
    exact h
  · intro eng crcF rf sf s off w h
    have h1 : ¬((0:Int) < 0) := by omega
    have h2 : ¬((0:Int) < (s.logic_offset : Int) ∧ (0:Int) ≠ 0) := fun hcon => hcon.2 rfl
    simp only [zfile_seek, h]
    rw [if_neg h1, if_neg h2, if_pos trivial]
    exact ⟨rfl, rfl⟩

/-- Witness for C7 as amended, at a concrete end-of-stream state. -/
theorem C7_terminal_flags_witness :
    zfile_read engId crcX 3 sEof 4 =
      { res := RRes.ok 0, bytes := [], st := sEof, warns := [] } :=
  C7_terminal_flags.1 engId crcX 3 4 sEof rfl

/-- C2 counterexample: a gzip file whose 8-byte trailer is missing.
The read call that hits the truncation still delivers the 2 decoded
bytes and records the sticky truncated state, as the claim says; but
because the decoder had already reported stream end, eof is set too,
and the next read call returns 0 (a clean EOF), not a read error. -/
theorem C2_cex :
    (zfile_read engC2 crcX 10 (zfile_fresh dataC2) 5).res = RRes.ok 2 ∧
    (zfile_read engC2 crcX 10 (zfile_fresh dataC2) 5).st.truncated = true ∧
    (zfile_read engC2 crcX 10 (zfile_fresh dataC2) 5).warns =
      [Warning.truncLostTrailer] ∧
    zfile_read engC2 crcX 10 (zfile_read engC2 crcX 10 (zfile_fresh dataC2) 5).st 5 =
      { res := RRes.ok 0, bytes := [],
        st := (zfile_read engC2 crcX 10 (zfile_fresh dataC2) 5).st, warns := [] } := by
  refine ⟨by decide, by decide, by decide, by decide⟩

/-- C2 as amended: a truncation of the compressed data found before the
decoder reached stream end behaves exactly as claimed: bytes decoded
before the truncation are delivered as a valid short read with the
sticky truncated flag set and eof still clear, and the next read call
(or the same one, when no decoded bytes were pending) surfaces a read
error with errno ENOBUFS and sets eof.  Only a truncation of the
trailer, found after stream end with bytes pending, instead leaves the
stream at a clean EOF (see the counterexample). -/
theorem C2_truncation_shortread_then_error :
    (∀ (eng : Eng) (crcF : CrcF) (fuel : Nat) (s : ZState) (n : Nat),
      n ≠ 0 → s.truncated = true → s.eof = false →
      zfile_read eng crcF fuel s n =
        { res := RRes.rerr ENOBUFS, bytes := [], st := { s with eof := true },
          warns := [] }) ∧
    (∀ (eng : Eng) (crcF : CrcF) (fuel : Nat) (s : ZState) (n : Nat) (l : LoopSt),
      n ≠ 0 → s.eof = false → s.truncated = false →
      zfile_loop eng crcF fuel (mkLoop s n) = LoopOut.toOut l → 0 < l.total →
      zfile_read eng crcF fuel s n =
        { res := RRes.ok l.total, bytes := l.acc, st := l.s, warns := l.warns }) ∧
    (∀ (eng : Eng) (crcF : CrcF) (fuel : Nat) (s : ZState) (n : Nat) (l : LoopSt),
      n ≠ 0 → s.eof = false → s.truncated = false →
      zfile_loop eng crcF fuel (mkLoop s n) = LoopOut.toOut l → l.total = 0 →
      l.s.truncated = true →
      zfile_read eng crcF fuel s n =
        { res := RRes.rerr ENOBUFS, bytes := l.acc, st := { l.s with eof := true },
          warns := l.warns }) := by
  refine ⟨?_, ?_, ?_⟩
  · intro eng crcF fuel s n h0 ht he
    have h1 : ¬(s.eof = true) := by simp [he]
    simp only [zfile_read, if_neg h0, if_neg h1, if_pos ht]
    rw [zfile_out_eq_trunc s 0 [] [] rfl ht]
  · intro eng crcF fuel s n l h0 he ht hloop htot
    have h1 : ¬(s.eof = true) := by simp [he]
    have h2 : ¬(s.truncated = true) := by simp [ht]
    simp only [zfile_read, if_neg h0, if_neg h1, if_neg h2]
    rw [hloop]
    simp only []
    rw [zfile_out_eq_pos _ _ _ _ htot]
  · intro eng crcF fuel s n l h0 he ht hloop htot htr
    have h1 : ¬(s.eof = true) := by simp [he]
    have h2 : ¬(s.truncated = true) := by simp [ht]
    simp only [zfile_read, if_neg h0, if_neg h1, if_neg h2]
    rw [hloop]
    simp only []
    rw [zfile_out_eq_trunc l.s l.total l.acc l.warns htot htr]

/-- Witness for C2 as amended: the pending-truncation state is surfaced
as an ENOBUFS read error by the next read. -/
theorem C2_truncation_shortread_then_error_witness :
    zfile_read engId crcX 3 sTr 4 =
      { res := RRes.rerr ENOBUFS, bytes := [], st := { sTr with eof := true },
        warns := [] } :=
  C2_truncation_shortread_then_error.1 engId crcX 3 sTr 4 (by decide) rfl rfl


/-- C1: for the gzip backend, when the read loop ends with the decoder
at stream end and the 8-byte trailer is available, a non-zero trailer
checksum that differs from the accumulated checksum only appends a
warning: the read returns the decoded bytes as a success (never an
error return and never the fatal exit), provided the trailer length
field matches. -/
theorem C1_crc_mismatch_warning_only :
    ∀ (eng : Eng) (crcF : CrcF) (fuel : Nat) (s : ZState) (size : Nat) (l : LoopSt),
      size ≠ 0 → s.eof = false → s.truncated = false →
      zfile_loop eng crcF fuel (mkLoop s size) = LoopOut.brk l →
      l.s.eof = true → l.s.truncated = false →
      (trailer8 l.s).1.length = 8 →
      le32 ((trailer8 l.s).1.take 4) ≠ 0 →
      le32 ((trailer8 l.s).1.take 4) ≠ l.s.crc →
      le32 (((trailer8 l.s).1.drop 4).take 4) = l.s.actual_len % 4294967296 →
      zfile_read eng crcF fuel s size =
        { res := if 0 < l.total then RRes.ok l.total else RRes.ok 0,
          bytes := l.acc,
          st := { l.s with src := (trailer8 l.s).2 },
          warns := l.warns ++
            [Warning.crcMismatch l.s.crc (le32 ((trailer8 l.s).1.take 4))] } := by
  intro eng crcF fuel s size l h0 he ht hloop hef htr hlen hnz hne hml
  have h1 : ¬(s.eof = true) := by simp [he]
  have h2 : ¬(s.truncated = true) := by simp [ht]
  simp only [zfile_read, if_neg h0, if_neg h1, if_neg h2]
  rw [hloop]
  simp only []
  rw [zfile_finish_eq_good l.s l.total l.acc l.warns hef (by omega) hml.symm]
  have hw : (if le32 ((trailer8 l.s).1.take 4) ≠ 0 then
      (if l.s.crc ≠ le32 ((trailer8 l.s).1.take 4) then
        [Warning.crcMismatch l.s.crc (le32 ((trailer8 l.s).1.take 4))]
       else [Warning.crcGood l.s.crc])
      else []) =
      [Warning.crcMismatch l.s.crc (le32 ((trailer8 l.s).1.take 4))] := by
    rw [if_pos hnz, if_pos (Ne.symm hne)]
  rw [hw]
  by_cases htot : 0 < l.total
  · rw [zfile_out_eq_pos _ _ _ _ htot, if_pos htot]
  · have htot0 : l.total = 0 := by omega
    rw [zfile_out_eq_zero { l.s with src := (trailer8 l.s).2 } _ _ _ htot0 htr,
      if_neg htot]

/-- Witness for C1: a concrete run on dataC1 (trailer checksum 9, the
accumulated checksum is 18, length matches) delivers both decoded
bytes, succeeds, and records exactly the checksum-mismatch warning. -/
theorem C1_crc_mismatch_warning_only_witness :
    zfile_read engC1 crcX 10 (zfile_fresh dataC1) 5 =
      { res := if 0 < lC1.total then RRes.ok lC1.total else RRes.ok 0,
        bytes := lC1.acc,
        st := { lC1.s with src := (trailer8 lC1.s).2 },
        warns := lC1.warns ++
          [Warning.crcMismatch lC1.s.crc (le32 ((trailer8 lC1.s).1.take 4))] } :=
  C1_crc_mismatch_warning_only engC1 crcX 10 (zfile_fresh dataC1) 5 lC1
    (by decide) (by decide) (by decide) (by decide) (by decide) (by decide)
    (by decide) (by decide) (by decide) (by decide)

/-- C4: a forward seek to a resolved target strictly ahead of the
current logical offset is emulated with discard reads; whenever it
returns success, the returned offset equals the resulting logic_offset,
and that offset is either exactly the target or, when end-of-stream was
hit first, the total decompressed length (the clamped position); on
both backends.  The invariant hypotheses hold in every reachable state
(reachG_invG, reachD_invD). -/
theorem C4_forward_seek_emulation :
    (∀ (eng : Eng) (crcF : CrcF) (rf sf : Nat) (s : ZState) (off : Int) (w : Whence)
        (t : Int),
      InvG s →
      resolvedTarget s.logic_offset off w = some t →
      (s.logic_offset : Int) < t →
      ∀ r, (zfile_seek eng crcF rf sf s off w).1 = SeekRes.sok r →
        r = ((zfile_seek eng crcF rf sf s off w).2.logic_offset : Int) ∧
        (r = t ∨
          ((zfile_seek eng crcF rf sf s off w).2.eof = true ∧
           (zfile_seek eng crcF rf sf s off w).2.logic_offset =
             (zfile_seek eng crcF rf sf s off w).2.actual_len))) ∧
    (∀ (eng : DEng) (rf sf : Nat) (s : DState) (off : Int) (w : Whence) (t : Int),
      InvD s →
      resolvedTarget s.logic_offset off w = some t →
      (s.logic_offset : Int) < t →
      ∀ r, (zstdfile_seek eng rf sf s off w).1 = SeekRes.sok r →
        r = ((zstdfile_seek eng rf sf s off w).2.logic_offset : Int) ∧
        (r = t ∨
          ((zstdfile_seek eng rf sf s off w).2.eof = true ∧
           (zstdfile_seek eng rf sf s off w).2.logic_offset =
             (zstdfile_seek eng rf sf s off w).2.actual_len))) := by
  constructor
  · intro eng crcF rf sf s off w t hinv hres hlt r hr
    have hn0 : ¬(t < 0) := by omega
    have hn1 : ¬(t < (s.logic_offset : Int) ∧ t ≠ 0) := fun hcon => by omega
    have hn2 : ¬(t = 0) := by omega
    have hsk := zfile_skip_props eng crcF rf sf t.toNat s hinv (by omega)
    rw [zfile_seek, hres] at hr ⊢
    simp only [] at hr ⊢
    rw [if_neg hn0, if_neg hn1, if_neg hn2, if_pos hlt] at hr ⊢
    obtain ⟨hr1, hr2⟩ := hsk.2 r hr
    refine ⟨hr1, ?_⟩
    rcases hr2 with hA | hB
    · left
      rw [hr1, hA]
      omega
    · exact Or.inr hB
  · intro eng rf sf s off w t hinv hres hlt r hr
    have hn0 : ¬(t < 0) := by omega
    have hn1 : ¬(t < (s.logic_offset : Int) ∧ t ≠ 0) := fun hcon => by omega
    have hn2 : ¬(t = 0) := by omega
    have hsk := zstd_skip_props eng rf sf t.toNat s hinv (by omega)
    rw [zstdfile_seek, hres] at hr ⊢
    simp only [] at hr ⊢
    rw [if_neg hn0, if_neg hn1, if_neg hn2, if_pos hlt] at hr ⊢
    obtain ⟨hr1, hr2⟩ := hsk.2 r hr
    refine ⟨hr1, ?_⟩
    rcases hr2 with hA | hB
    · left
      rw [hr1, hA]
      omega
    · exact Or.inr hB

/-- Witness for C4: a concrete forward seek to offset 1. -/
theorem C4_forward_seek_emulation_witness :
    (1 : Int) = ((zfile_seek engC4 crcX 4 4 (zfile_fresh (hdr10 ++ [1, 2, 3, 4]))
        1 Whence.set).2.logic_offset : Int) ∧
    ((1 : Int) = 1 ∨
      ((zfile_seek engC4 crcX 4 4 (zfile_fresh (hdr10 ++ [1, 2, 3, 4]))
          1 Whence.set).2.eof = true ∧
       (zfile_seek engC4 crcX 4 4 (zfile_fresh (hdr10 ++ [1, 2, 3, 4]))
          1 Whence.set).2.logic_offset =
         (zfile_seek engC4 crcX 4 4 (zfile_fresh (hdr10 ++ [1, 2, 3, 4]))
            1 Whence.set).2.actual_len)) :=
  C4_forward_seek_emulation.1 engC4 crcX 4 4 (zfile_fresh (hdr10 ++ [1, 2, 3, 4]))
    1 Whence.set 1 ⟨rfl, rfl, fun _ => rfl, fun _ => rfl⟩ rfl (by decide) 1 (by decide)

end SCF
